import Mathlib

/-!
Shallow embedding of `scrape.py` (crawler for products, testimonials and
reviews of an e-commerce demo site) and proofs about its behaviour.

Machine-level conventions:
* Python strings are Lean `String`s / `List Char`.
* `datetime.strptime` is modelled per format string, following CPython's
  `_strptime` implementation: each directive compiles to a regex fragment
  (`%Y` = four digits, `%d` = `3[01]|[12]\d|0[1-9]|[1-9]`, ...), a literal
  space becomes one-or-more whitespace, matching is anchored at the start,
  alternations are tried in order with backtracking, and after the first
  complete pattern match the remaining input must be empty; finally the
  `datetime` constructor validates the calendar date.
* HTML documents are modelled as records holding exactly the pieces the
  scraper selects (cards, attributes, extracted text); `get_text(strip=True)`
  results are carried as the stored strings.
* `requests.get` + `raise_for_status` is modelled as a function into a
  result type with an explicit failure constructor; an uncaught exception is
  failure propagation in that type.
-/

def BASE : String := "https://web-scraping.dev"

def HEADERS : List (String × String) :=
  [("User-Agent", "Mozilla/5.0 (compatible; HW3 bot; +https://example.com)")]

/-- Characters stripped by Python's `str.strip()` (ASCII fragment) and
matched by the regex class `\s` in `_strptime` patterns. -/
def isPySpace (c : Char) : Bool :=
  c = ' ' ∨ c = '\t' ∨ c = '\n' ∨ c = '\r' ∨ c = '\x0b' ∨ c = '\x0c'

/-- `str.strip()` on a character list. -/
def pyStripList (l : List Char) : List Char :=
  ((l.dropWhile isPySpace).reverse.dropWhile isPySpace).reverse

/-- Result of `datetime.strptime`: the `datetime` object's fields. -/
structure PDate where
  year : Nat
  month : Nat
  day : Nat
  hour : Nat
  minute : Nat
  second : Nat
deriving DecidableEq

def defaultPDate : PDate := ⟨1900, 1, 1, 0, 0, 0⟩

def isDig (c : Char) : Bool := 48 ≤ c.toNat ∧ c.toNat ≤ 57

def digitVal (c : Char) : Nat := c.toNat - 48

def lowerc (c : Char) : Char :=
  if 'A' ≤ c ∧ c ≤ 'Z' then Char.ofNat (c.toNat + 32) else c

/-- Case-insensitive match of a (lowercase) name against a prefix of the
input; returns the rest of the input on success. -/
def matchNameCI : List Char → List Char → Option (List Char)
  | [], rest => some rest
  | _ :: _, [] => none
  | n :: ns, c :: cs => if lowerc c = n then matchNameCI ns cs else none

/-- Abbreviated month names in `_strptime`'s alternation order. -/
def abbrMonths : List (List Char × Nat) :=
  [("jan".toList, 1), ("feb".toList, 2), ("mar".toList, 3), ("apr".toList, 4),
   ("may".toList, 5), ("jun".toList, 6), ("jul".toList, 7), ("aug".toList, 8),
   ("sep".toList, 9), ("oct".toList, 10), ("nov".toList, 11), ("dec".toList, 12)]

/-- Full month names, sorted longest first (as `_strptime` builds the
alternation); no name is a prefix of another, so the order is immaterial. -/
def fullMonths : List (List Char × Nat) :=
  [("september".toList, 9), ("february".toList, 2), ("november".toList, 11),
   ("december".toList, 12), ("january".toList, 1), ("october".toList, 10),
   ("august".toList, 8), ("march".toList, 3), ("april".toList, 4),
   ("june".toList, 6), ("july".toList, 7), ("may".toList, 5)]

def matchMonthName (tbl : List (List Char × Nat)) (s : List Char) :
    List (Nat × List Char) :=
  tbl.filterMap (fun e => (matchNameCI e.1 s).map (fun rest => (e.2, rest)))

/-- `%Y`: exactly four digits. -/
def matchYear4 : List Char → List (Nat × List Char)
  | a :: b :: c :: d :: rest =>
    if isDig a ∧ isDig b ∧ isDig c ∧ isDig d then
      [(digitVal a * 1000 + digitVal b * 100 + digitVal c * 10 + digitVal d, rest)]
    else []
  | _ => []

/-- `%d`: `3[01]|[12]\d|0[1-9]|[1-9]`, alternatives in regex order. -/
def matchDay (s : List Char) : List (Nat × List Char) :=
  (match s with
   | a :: b :: rest =>
     (if a = '3' ∧ (b = '0' ∨ b = '1') then [(30 + digitVal b, rest)] else [])
     ++ (if (a = '1' ∨ a = '2') ∧ isDig b then
           [(digitVal a * 10 + digitVal b, rest)] else [])
     ++ (if a = '0' ∧ isDig b ∧ b ≠ '0' then [(digitVal b, rest)] else [])
   | _ => [])
  ++ (match s with
      | a :: rest => if isDig a ∧ a ≠ '0' then [(digitVal a, rest)] else []
      | [] => [])

/-- `%m`: `1[0-2]|0[1-9]|[1-9]`. -/
def matchMonth (s : List Char) : List (Nat × List Char) :=
  (match s with
   | a :: b :: rest =>
     (if a = '1' ∧ (b = '0' ∨ b = '1' ∨ b = '2') then
        [(10 + digitVal b, rest)] else [])
     ++ (if a = '0' ∧ isDig b ∧ b ≠ '0' then [(digitVal b, rest)] else [])
   | _ => [])
  ++ (match s with
      | a :: rest => if isDig a ∧ a ≠ '0' then [(digitVal a, rest)] else []
      | [] => [])

/-- `%H`: `2[0-3]|[0-1]\d|\d`. -/
def matchHour (s : List Char) : List (Nat × List Char) :=
  (match s with
   | a :: b :: rest =>
     (if a = '2' ∧ (b = '0' ∨ b = '1' ∨ b = '2' ∨ b = '3') then
        [(20 + digitVal b, rest)] else [])
     ++ (if (a = '0' ∨ a = '1') ∧ isDig b then
           [(digitVal a * 10 + digitVal b, rest)] else [])
   | _ => [])
  ++ (match s with
      | a :: rest => if isDig a then [(digitVal a, rest)] else []
      | [] => [])

/-- `%M`: `[0-5]\d|\d`. -/
def matchMinute (s : List Char) : List (Nat × List Char) :=
  (match s with
   | a :: b :: rest =>
     if isDig a ∧ a ≤ '5' ∧ isDig b then
       [(digitVal a * 10 + digitVal b, rest)] else []
   | _ => [])
  ++ (match s with
      | a :: rest => if isDig a then [(digitVal a, rest)] else []
      | [] => [])

/-- `%S`: `6[0-1]|[0-5]\d|\d` (leap seconds pass the regex; the `datetime`
constructor rejects them afterwards). -/
def matchSecond (s : List Char) : List (Nat × List Char) :=
  (match s with
   | a :: b :: rest =>
     (if a = '6' ∧ (b = '0' ∨ b = '1') then [(60 + digitVal b, rest)] else [])
     ++ (if isDig a ∧ a ≤ '5' ∧ isDig b then
           [(digitVal a * 10 + digitVal b, rest)] else [])
   | _ => [])
  ++ (match s with
      | a :: rest => if isDig a then [(digitVal a, rest)] else []
      | [] => [])

/-- One-or-more whitespace (`\s+`, the compilation of a literal space). -/
def matchWsRun : List Char → List (Nat × List Char)
  | c :: cs => if isPySpace c then [(0, cs.dropWhile isPySpace)] else []
  | [] => []

/-- A literal (escaped) character of the format string. -/
def matchLit (c : Char) : List Char → List (Nat × List Char)
  | a :: rest => if a = c then [(0, rest)] else []
  | [] => []

/-- Compiled directives of the five formats used by `parse_date`. -/
inductive Tok where
  | year4
  | monthNum
  | dayNum
  | hourNum
  | minuteNum
  | secondNum
  | monAbbr
  | monFull
  | litc (c : Char)
  | ws
deriving DecidableEq

def tokAlts : Tok → List Char → List (Nat × List Char)
  | .year4 => matchYear4
  | .monthNum => matchMonth
  | .dayNum => matchDay
  | .hourNum => matchHour
  | .minuteNum => matchMinute
  | .secondNum => matchSecond
  | .monAbbr => matchMonthName abbrMonths
  | .monFull => matchMonthName fullMonths
  | .litc c => matchLit c
  | .ws => matchWsRun

def applyTok (t : Tok) (v : Nat) (d : PDate) : PDate :=
  match t with
  | .year4 => { d with year := v }
  | .monthNum => { d with month := v }
  | .dayNum => { d with day := v }
  | .hourNum => { d with hour := v }
  | .minuteNum => { d with minute := v }
  | .secondNum => { d with second := v }
  | .monAbbr => { d with month := v }
  | .monFull => { d with month := v }
  | .litc _ => d
  | .ws => d

/-- Backtracking match of a compiled format against the input, anchored at
the start; returns the first complete pattern match, in alternation priority
order, together with the unconsumed suffix (the regex engine stops at the
first overall match; `strptime` then separately insists the suffix is
empty). -/
def matchToks : List Tok → PDate → List Char → Option (PDate × List Char)
  | [], acc, s => some (acc, s)
  | t :: ts, acc, s =>
    (tokAlts t s).findSome? (fun vr => matchToks ts (applyTok t vr.1 acc) vr.2)

def isLeap (y : Nat) : Bool := y % 4 = 0 ∧ (y % 100 ≠ 0 ∨ y % 400 = 0)

def daysInMonth (y m : Nat) : Nat :=
  if m = 2 then (if isLeap y then 29 else 28)
  else if m = 4 ∨ m = 6 ∨ m = 9 ∨ m = 11 then 30
  else 31

/-- The `datetime(...)` constructor's range checks. -/
def validDate (d : PDate) : Bool :=
  1 ≤ d.year ∧ d.year ≤ 9999 ∧ 1 ≤ d.month ∧ d.month ≤ 12
  ∧ 1 ≤ d.day ∧ d.day ≤ daysInMonth d.year d.month
  ∧ d.hour ≤ 23 ∧ d.minute ≤ 59 ∧ d.second ≤ 59

/-- `datetime.strptime(s, fmt)` for one compiled format: `none` is the
`ValueError` outcome (regex failure, trailing input, or invalid date). -/
def strptimeFmt (fmt : List Tok) (s : List Char) : Option PDate :=
  match matchToks fmt defaultPDate s with
  | some (d, []) => if validDate d then some d else none
  | _ => none

def fmtISO : List Tok :=
  [.year4, .litc '-', .monthNum, .litc '-', .dayNum]

def fmtEuro : List Tok :=
  [.dayNum, .litc '.', .monthNum, .litc '.', .year4]

def fmtAbbr : List Tok :=
  [.monAbbr, .ws, .dayNum, .litc ',', .ws, .year4]

def fmtFull : List Tok :=
  [.monFull, .ws, .dayNum, .litc ',', .ws, .year4]

def fmtISOdt : List Tok :=
  [.year4, .litc '-', .monthNum, .litc '-', .dayNum, .ws,
   .hourNum, .litc ':', .minuteNum, .litc ':', .secondNum]

/-- The format list of `parse_date`, in source order. -/
def formatList : List (List Tok) :=
  [fmtISO, fmtEuro, fmtAbbr, fmtFull, fmtISOdt]

/-- `parse_date(raw)`: strip, then try each format in order, returning the
first success; `None` when every format raises `ValueError`. -/
def parse_date (raw : String) : Option PDate :=
  formatList.findSome? (fun f => strptimeFmt f (pyStripList raw.toList))

example : parse_date "15.03.2023" = some ⟨2023, 3, 15, 0, 0, 0⟩ := by decide
example : parse_date "March 15, 2023" = some ⟨2023, 3, 15, 0, 0, 0⟩ := by decide
example : parse_date "not-a-date" = none := by decide
example : parse_date "" = none := by decide
example : parse_date "  2023-03-15 " = some ⟨2023, 3, 15, 0, 0, 0⟩ := by decide
example : parse_date "2023-03-15 12:30:45" = some ⟨2023, 3, 15, 12, 30, 45⟩ := by decide
example : parse_date "Mar 1, 2023" = some ⟨2023, 3, 1, 0, 0, 0⟩ := by decide
example : parse_date "2023-02-30" = none := by decide

/-! ## Product crawler (`scrape_products`) -/

/-- The `h3 a` anchor of a product card: its stripped text and its `href`
attribute (absent when the attribute is missing). -/
structure Anchor where
  text : String
  href : Option String
deriving DecidableEq

/-- A `div.row.product` card, holding exactly what the scraper selects:
the optional `h3 a` anchor, and the stripped texts of `div.price` and
`div.short-description` when those elements exist. -/
structure ProductCard where
  nameAnchor : Option Anchor
  priceText : Option String
  descText : Option String
deriving DecidableEq

/-- One listing page: its product cards, and the `href` of the first
anchor with visible text ">" inside `div.paging`, truthiness-checked
(`none` when there is no such anchor or its href is missing/empty). -/
structure ListingPage where
  cards : List ProductCard
  nextHref : Option String
deriving DecidableEq

def listStartsWith : List Char → List Char → Bool
  | _, [] => true
  | [], _ :: _ => false
  | a :: as, b :: bs => a = b ∧ listStartsWith as bs

/-- Python's `s.startswith(pre)`. -/
def pyStartsWith (s pre : String) : Bool :=
  listStartsWith s.toList pre.toList

/-- `link = name_el.get("href") if name_el else None`, then
`if link and not link.startswith("http"): link = BASE + link`
(an empty href is falsy, so it is kept as is). -/
def cardLink (c : ProductCard) : Option String :=
  match c.nameAnchor with
  | none => none
  | some a =>
    match a.href with
    | none => none
    | some l => some (if l ≠ "" ∧ ¬ pyStartsWith l "http" then BASE ++ l else l)

structure ProductRow where
  name : Option String
  price : Option String
  link : Option String
  description : Option String
  category : String
deriving DecidableEq

/-- The per-card loop body of `scrape_products`: dedup on `seen_links`
(which, like the Python set, holds `None` as a value too), then record.
Returns the updated seen set and the rows appended on this page. -/
def processCards (category : String) :
    List ProductCard → List (Option String) →
    List (Option String) × List ProductRow
  | [], seen => (seen, [])
  | c :: rest, seen =>
    let link := cardLink c
    if link ∈ seen then processCards category rest seen
    else
      let row : ProductRow :=
        { name := c.nameAnchor.map Anchor.text
          price := c.priceText
          link := link
          description := c.descText
          category := category }
      let r := processCards category rest (link :: seen)
      (r.1, row :: r.2)

/-- The per-category `while url:` loop of `scrape_products`. The input list
is the chain of listing pages reached by following the ">" links; the loop
continues past a page exactly when that page offers a (truthy) next href. -/
def crawlCategory (category : String) :
    List ListingPage → List (Option String) →
    List (Option String) × List ProductRow
  | [], seen => (seen, [])
  | p :: rest, seen =>
    let r1 := processCards category p.cards seen
    match p.nextHref with
    | some _ =>
      let r2 := crawlCategory category rest r1.1
      (r2.1, r1.2 ++ r2.2)
    | none => r1

def categories : List String := ["apparel", "consumables", "household"]

/-- The `for category in categories:` loop: the seen set is shared across
categories, the rows lists are concatenated in order. -/
def crawlCategories : List String → (String → List ListingPage) →
    List (Option String) → List (Option String) × List ProductRow
  | [], _, seen => (seen, [])
  | c :: cs, site, seen =>
    let r1 := crawlCategory c (site c) seen
    let r2 := crawlCategories cs site r1.1
    (r2.1, r1.2 ++ r2.2)

/-- `scrape_products()`, abstracted over the site content: `site c` is the
chain of listing pages of category `c`. -/
def scrape_products (site : String → List ListingPage) : List ProductRow :=
  (crawlCategories categories site []).2

/-- The cards the crawl iterates over (same traversal as `crawlCategory`,
without the dedup state). -/
def visitedCardsPages : List ListingPage → List ProductCard
  | [] => []
  | p :: rest =>
    p.cards ++ (match p.nextHref with
                | some _ => visitedCardsPages rest
                | none => [])

def visitedCats : List String → (String → List ListingPage) → List ProductCard
  | [], _ => []
  | c :: cs, site => visitedCardsPages (site c) ++ visitedCats cs site

def visitedCards (site : String → List ListingPage) : List ProductCard :=
  visitedCats categories site

/-! ## Review extraction (`scrape_reviews`) -/

/-- One entry of the embedded `reviews-data` JSON list, holding the keys
the scraper reads via `.get`. -/
structure RawReviewJson where
  id : Option String
  text : Option String
  rating : Option Int
  date : Option String
deriving DecidableEq

structure ReviewRow where
  review_id : Option String
  product_url : String
  text : Option String
  rating : Option Int
  date_raw : String
  date : Option PDate
  is_from_2023 : Bool
deriving DecidableEq

/-- The per-review loop body: `date_raw = review.get("date", "")`,
`date_parsed = parse_date(date_raw) if date_raw else None`,
`is_from_2023 = date_parsed is not None and date_parsed.year == 2023`. -/
def processReview (productUrl : String) (r : RawReviewJson) : ReviewRow :=
  let dateRaw := r.date.getD ""
  let dateParsed := if dateRaw ≠ "" then parse_date dateRaw else none
  { review_id := r.id
    product_url := productUrl
    text := r.text
    rating := r.rating
    date_raw := dateRaw
    date := dateParsed
    is_from_2023 :=
      match dateParsed with
      | some d => d.year == 2023
      | none => false }

structure FetchError where
  url : String
deriving DecidableEq

/-- Outcome of a call that may raise (`requests.get` + `raise_for_status`):
`fail` is an uncaught exception propagating to the caller. -/
inductive FetchResult (α : Type) where
  | ok (a : α)
  | fail (e : FetchError)
deriving DecidableEq

/-- What `scrape_reviews` finds on one product detail page: no
`script#reviews-data` element, a present but unparseable JSON payload, or
a parsed list of review records. -/
inductive ScriptResult where
  | absent
  | malformed
  | parsed (reviews : List RawReviewJson)
deriving DecidableEq

/-- Reviews contributed by one page: both the missing-script `continue` and
the `except`-caught JSON failure contribute nothing. -/
def scriptReviews (s : ScriptResult) : List RawReviewJson :=
  match s with
  | .parsed rs => rs
  | _ => []

/-- The `for product_url in product_links:` loop. `get_soup` is NOT inside
a try/except, so a fetch failure propagates out of the whole loop. -/
def reviewsGo (fetch : String → FetchResult ScriptResult) :
    List String → FetchResult (List ReviewRow)
  | [] => .ok []
  | url :: rest =>
    match fetch url with
    | .fail e => .fail e
    | .ok s =>
      match reviewsGo fetch rest with
      | .fail e => .fail e
      | .ok more => .ok ((scriptReviews s).map (processReview url) ++ more)

/-- `scrape_reviews(products_df)`: collect all rows, then derive the 2023
view by filtering the full set on the `is_from_2023` column. -/
def scrape_reviews (fetch : String → FetchResult ScriptResult)
    (links : List String) : FetchResult (List ReviewRow × List ReviewRow) :=
  match reviewsGo fetch links with
  | .fail e => .fail e
  | .ok all => .ok (all, all.filter (fun r => r.is_from_2023))

/-! ## Testimonial crawler (`scrape_testimonials`) -/

/-- A `div.testimonial` card: the `username` attribute of a nested
`identicon-svg` (when that element exists), the stripped text of a nested
`p.text`, the list of `svg` children of a nested `span.rating`, and the
card's own `hx-get` attribute. -/
structure TCard where
  username : Option String
  textEl : Option String
  ratingSvgs : Option (List Unit)
  hxGet : Option String
deriving DecidableEq

structure TPage where
  cards : List TCard
deriving DecidableEq

structure TRow where
  author : Option String
  text : String
  rating : Option Nat
deriving DecidableEq

/-- The per-card body: extract author/text/rating, append only when the
text is truthy (present and non-empty). -/
def cardRow (c : TCard) : Option TRow :=
  let author := c.username
  let rating := c.ratingSvgs.map List.length
  match c.textEl with
  | some t => if t ≠ "" then some ⟨author, t, rating⟩ else none
  | none => none

def extractTRows (p : TPage) : List TRow :=
  p.cards.filterMap cardRow

/-- Next-page discovery: iterate the cards that carry an `hx-get`
attribute; every truthy value overwrites `next_link`, so the last truthy
`hx-get` wins. -/
def nextLinkOf (p : TPage) : Option String :=
  (p.cards.filterMap (fun c =>
    match c.hxGet with
    | some s => if s ≠ "" then some s else none
    | none => none)).getLast?

/-- `url = next_link if next_link.startswith("http") else BASE + next_link`. -/
def resolveNext (l : String) : String :=
  if pyStartsWith l "http" then l else BASE ++ l

/-- `dict.update` on an insertion-ordered association list: an existing key
keeps its position but takes the new value, a new key is appended. -/
def updateHeader (hs : List (String × String)) (k v : String) :
    List (String × String) :=
  if hs.any (fun p => p.1 = k) then
    hs.map (fun p => if p.1 = k then (k, v) else p)
  else hs ++ [(k, v)]

/-- `req_headers = HEADERS.copy(); req_headers.update(extra)` merged over a
base header dict. -/
def mergeHeaders (base extra : List (String × String)) :
    List (String × String) :=
  extra.foldl (fun acc p => updateHeader acc p.1 p.2) base

/-- First (dict) entry for a key. -/
def headerLookup : List (String × String) → String → Option String
  | [], _ => none
  | (k, v) :: rest, key => if k = key then some v else headerLookup rest key

/-- The headers `get_soup` actually sends: `HEADERS.copy()` updated with
the `headers` argument when one is passed. -/
def soupHeaders (extra : Option (List (String × String))) :
    List (String × String) :=
  match extra with
  | none => HEADERS
  | some hs => mergeHeaders HEADERS hs

def secretHeaders : List (String × String) :=
  [("x-secret-token", "secret123"), ("referer", BASE ++ "/testimonials")]

structure Visit where
  url : String
  headers : List (String × String)
deriving DecidableEq

/-- The header choice of the loop body: `get_soup(url)` on page 1,
`get_soup(url, headers=secret_headers)` on every later page. -/
def crawlHeaders (page : Nat) : List (String × String) :=
  if page = 1 then soupHeaders none else soupHeaders (some secretHeaders)

/-- The `while url:` loop of `scrape_testimonials`, abstracted over the
site (`site url` is the fetched page, `none` a fetch failure) and given
fuel; `none` overall means the loop did not complete within the fuel or a
fetch raised. Returns the fetch trace and the accumulated rows. -/
def crawlT (site : String → Option TPage) :
    Nat → String → Nat → Option (List Visit × List TRow)
  | 0, _, _ => none
  | Nat.succ fuel, url, page =>
    match site url with
    | none => none
    | some p =>
      match nextLinkOf p with
      | some nl =>
        match crawlT site fuel (resolveNext nl) (page + 1) with
        | none => none
        | some (vs, rs) =>
          some (⟨url, crawlHeaders page⟩ :: vs, extractTRows p ++ rs)
      | none => some ([⟨url, crawlHeaders page⟩], extractTRows p)

def scrape_testimonials (site : String → Option TPage) (fuel : Nat) :
    Option (List Visit × List TRow) :=
  crawlT site fuel (BASE ++ "/testimonials") 1

/-! ## Theorems: date normalizer -/

theorem dropWhile_rdropWhile_of_dropWhile_eq {p : Char → Bool}
    {A : List Char} (hA : List.dropWhile p A = A) :
    List.dropWhile p (List.rdropWhile p A) = List.rdropWhile p A := by
  cases hR : List.rdropWhile p A with
  | nil => simp
  | cons r rs =>
    have hpre := List.rdropWhile_prefix p A
    rw [hR] at hpre
    obtain ⟨t, ht⟩ := hpre
    have hr : p r = false := by
      by_contra hpr
      rw [Bool.not_eq_false] at hpr
      rw [← ht, List.cons_append, List.dropWhile_cons_of_pos hpr] at hA
      have hle : (List.dropWhile p (rs ++ t)).length ≤ (rs ++ t).length :=
        (List.dropWhile_suffix p).sublist.length_le
      rw [hA] at hle
      simp at hle
    simp [List.dropWhile_cons_of_neg, hr]

theorem pyStripList_eq (l : List Char) :
    pyStripList l = List.rdropWhile isPySpace (List.dropWhile isPySpace l) := rfl

theorem pyStripList_idem (l : List Char) :
    pyStripList (pyStripList l) = pyStripList l := by
  rw [pyStripList_eq, pyStripList_eq]
  rw [dropWhile_rdropWhile_of_dropWhile_eq (List.dropWhile_idempotent _ _)]
  exact List.rdropWhile_idempotent _ _

/-- C3: `parse_date` first trims surrounding whitespace, then tries in this
fixed order the formats ISO date, day.month.year, abbreviated-month
day-year, full-month day-year, and ISO datetime, returning the result of
the first format that matches; it returns `none` exactly when all five
formats fail (failure is an ordinary value of the model, never an
exception); and concretely "15.03.2023" and "March 15, 2023" both parse to
2023-03-15 while "not-a-date" yields `none`. -/
theorem c3_parse_date_order :
    (∀ raw : String,
      parse_date raw = parse_date (List.asString (pyStripList raw.toList)))
  ∧ parse_date "15.03.2023" = some ⟨2023, 3, 15, 0, 0, 0⟩
  ∧ parse_date "March 15, 2023" = some ⟨2023, 3, 15, 0, 0, 0⟩
  ∧ parse_date "not-a-date" = none
  ∧ (∀ raw : String, ∀ d : PDate,
      parse_date raw = some d ↔
        strptimeFmt fmtISO (pyStripList raw.toList) = some d
        ∨ (strptimeFmt fmtISO (pyStripList raw.toList) = none
           ∧ strptimeFmt fmtEuro (pyStripList raw.toList) = some d)
        ∨ (strptimeFmt fmtISO (pyStripList raw.toList) = none
           ∧ strptimeFmt fmtEuro (pyStripList raw.toList) = none
           ∧ strptimeFmt fmtAbbr (pyStripList raw.toList) = some d)
        ∨ (strptimeFmt fmtISO (pyStripList raw.toList) = none
           ∧ strptimeFmt fmtEuro (pyStripList raw.toList) = none
           ∧ strptimeFmt fmtAbbr (pyStripList raw.toList) = none
           ∧ strptimeFmt fmtFull (pyStripList raw.toList) = some d)
        ∨ (strptimeFmt fmtISO (pyStripList raw.toList) = none
           ∧ strptimeFmt fmtEuro (pyStripList raw.toList) = none
           ∧ strptimeFmt fmtAbbr (pyStripList raw.toList) = none
           ∧ strptimeFmt fmtFull (pyStripList raw.toList) = none
           ∧ strptimeFmt fmtISOdt (pyStripList raw.toList) = some d))
  ∧ (∀ raw : String,
      parse_date raw = none ↔
        ∀ f ∈ formatList, strptimeFmt f (pyStripList raw.toList) = none) := by
  refine ⟨?_, by decide, by decide, by decide, ?_, ?_⟩
  · intro raw
    show List.findSome? (fun f => strptimeFmt f (pyStripList raw.toList)) formatList
      = List.findSome?
          (fun f => strptimeFmt f
            (pyStripList (List.asString (pyStripList raw.toList)).toList))
          formatList
    have h : (List.asString (pyStripList raw.toList)).toList
        = pyStripList raw.toList := rfl
    rw [h, pyStripList_idem]
  · intro raw d
    show List.findSome? (fun f => strptimeFmt f (pyStripList raw.toList)) formatList
      = some d ↔ _
    generalize pyStripList raw.toList = r
    simp only [formatList, List.findSome?_cons, List.findSome?_nil]
    rcases h1 : strptimeFmt fmtISO r with _ | d1 <;>
      rcases h2 : strptimeFmt fmtEuro r with _ | d2 <;>
      rcases h3 : strptimeFmt fmtAbbr r with _ | d3 <;>
      rcases h4 : strptimeFmt fmtFull r with _ | d4 <;>
      rcases h5 : strptimeFmt fmtISOdt r with _ | d5 <;>
      simp [h1, h2, h3, h4, h5]
  · intro raw
    show List.findSome? (fun f => strptimeFmt f (pyStripList raw.toList)) formatList
      = none ↔ _
    generalize pyStripList raw.toList = r
    simp only [formatList, List.findSome?_cons, List.findSome?_nil]
    rcases h1 : strptimeFmt fmtISO r with _ | d1 <;>
      rcases h2 : strptimeFmt fmtEuro r with _ | d2 <;>
      rcases h3 : strptimeFmt fmtAbbr r with _ | d3 <;>
      rcases h4 : strptimeFmt fmtFull r with _ | d4 <;>
      rcases h5 : strptimeFmt fmtISOdt r with _ | d5 <;>
      simp [h1, h2, h3, h4, h5]

theorem c3_witness :
    parse_date "15.03.2023" = some ⟨2023, 3, 15, 0, 0, 0⟩
    ∧ parse_date "not-a-date" = none :=
  ⟨c3_parse_date_order.2.1, c3_parse_date_order.2.2.2.1⟩

/-! ## Theorems: product crawler dedup -/

theorem processCards_mem_seen (cat : String) :
    ∀ (cards : List ProductCard) (seen : List (Option String)) (x : Option String),
    x ∈ (processCards cat cards seen).1 ↔
      x ∈ seen ∨ ∃ r ∈ (processCards cat cards seen).2, r.link = x := by
  intro cards
  induction cards with
  | nil => simp [processCards]
  | cons c rest ih =>
    intro seen x
    simp only [processCards]
    by_cases h : cardLink c ∈ seen
    · rw [if_pos h]
      exact ih seen x
    · rw [if_neg h]
      rw [ih (cardLink c :: seen) x]
      simp only [List.mem_cons, List.exists_mem_cons_iff]
      aesop

theorem processCards_nodup_disj (cat : String) :
    ∀ (cards : List ProductCard) (seen : List (Option String)),
    (((processCards cat cards seen).2.map ProductRow.link).Nodup)
    ∧ ∀ r ∈ (processCards cat cards seen).2, r.link ∉ seen := by
  intro cards
  induction cards with
  | nil => simp [processCards]
  | cons c rest ih =>
    intro seen
    simp only [processCards]
    by_cases h : cardLink c ∈ seen
    · rw [if_pos h]
      exact ih seen
    · rw [if_neg h]
      obtain ⟨hnd, hdisj⟩ := ih (cardLink c :: seen)
      refine ⟨?_, ?_⟩
      · simp only [List.map_cons, List.nodup_cons]
        refine ⟨?_, hnd⟩
        intro hmem
        obtain ⟨r, hr, hl⟩ := List.mem_map.mp hmem
        exact hdisj r hr (hl ▸ List.mem_cons_self _ _)
      · intro r hr
        rcases List.mem_cons.mp hr with rfl | hr'
        · exact h
        · intro hmem
          exact hdisj r hr' (List.mem_cons_of_mem _ hmem)

theorem processCards_card_seen (cat : String) :
    ∀ (cards : List ProductCard) (seen : List (Option String)) (c : ProductCard),
    c ∈ cards → cardLink c ∈ (processCards cat cards seen).1 := by
  intro cards
  induction cards with
  | nil => simp
  | cons c0 rest ih =>
    intro seen c hc
    simp only [processCards]
    by_cases h : cardLink c0 ∈ seen
    · rw [if_pos h]
      rcases List.mem_cons.mp hc with rfl | hc'
      · exact (processCards_mem_seen cat rest seen _).mpr (Or.inl h)
      · exact ih seen c hc'
    · rw [if_neg h]
      rcases List.mem_cons.mp hc with rfl | hc'
      · exact (processCards_mem_seen cat rest _ _).mpr
          (Or.inl (List.mem_cons_self _ _))
      · exact ih _ c hc'

theorem crawlCategory_mem_seen (cat : String) :
    ∀ (pages : List ListingPage) (seen : List (Option String)) (x : Option String),
    x ∈ (crawlCategory cat pages seen).1 ↔
      x ∈ seen ∨ ∃ r ∈ (crawlCategory cat pages seen).2, r.link = x := by
  intro pages
  induction pages with
  | nil => simp [crawlCategory]
  | cons p rest ih =>
    intro seen x
    cases hnp : p.nextHref with
    | none =>
      simp only [crawlCategory, hnp]
      exact processCards_mem_seen cat p.cards seen x
    | some nl =>
      simp only [crawlCategory, hnp]
      rw [ih]
      rw [processCards_mem_seen cat p.cards seen x]
      simp only [List.mem_append]
      constructor
      · rintro ((hx | ⟨r, hr, hl⟩) | ⟨r, hr, hl⟩)
        · exact Or.inl hx
        · exact Or.inr ⟨r, Or.inl hr, hl⟩
        · exact Or.inr ⟨r, Or.inr hr, hl⟩
      · rintro (hx | ⟨r, hr | hr, hl⟩)
        · exact Or.inl (Or.inl hx)
        · exact Or.inl (Or.inr ⟨r, hr, hl⟩)
        · exact Or.inr ⟨r, hr, hl⟩

theorem crawlCategory_nodup_disj (cat : String) :
    ∀ (pages : List ListingPage) (seen : List (Option String)),
    ((crawlCategory cat pages seen).2.map ProductRow.link).Nodup
    ∧ ∀ r ∈ (crawlCategory cat pages seen).2, r.link ∉ seen := by
  intro pages
  induction pages with
  | nil => simp [crawlCategory]
  | cons p rest ih =>
    intro seen
    cases hnp : p.nextHref with
    | none =>
      simp only [crawlCategory, hnp]
      exact processCards_nodup_disj cat p.cards seen
    | some nl =>
      simp only [crawlCategory, hnp]
      obtain ⟨h1nd, h1disj⟩ := processCards_nodup_disj cat p.cards seen
      obtain ⟨h2nd, h2disj⟩ := ih (processCards cat p.cards seen).1
      constructor
      · rw [List.map_append]
        refine List.Nodup.append h1nd h2nd ?_
        intro a ha1 ha2
        obtain ⟨r1, hr1, hl1⟩ := List.mem_map.mp ha1
        obtain ⟨r2, hr2, hl2⟩ := List.mem_map.mp ha2
        have : r2.link ∈ (processCards cat p.cards seen).1 :=
          (processCards_mem_seen cat p.cards seen _).mpr (Or.inr ⟨r1, hr1, hl1.trans hl2.symm⟩)
        exact h2disj r2 hr2 this
      · intro r hr
        rcases List.mem_append.mp hr with hr' | hr'
        · exact h1disj r hr'
        · intro hmem
          exact h2disj r hr'
            ((processCards_mem_seen cat p.cards seen _).mpr (Or.inl hmem))

theorem crawlCategory_card_seen (cat : String) :
    ∀ (pages : List ListingPage) (seen : List (Option String)) (c : ProductCard),
    c ∈ visitedCardsPages pages → cardLink c ∈ (crawlCategory cat pages seen).1 := by
  intro pages
  induction pages with
  | nil => simp [visitedCardsPages]
  | cons p rest ih =>
    intro seen c hc
    simp only [visitedCardsPages] at hc
    cases hnp : p.nextHref with
    | none =>
      simp only [crawlCategory, hnp]
      rw [hnp] at hc
      simp only [List.append_nil] at hc
      exact processCards_card_seen cat p.cards seen c hc
    | some nl =>
      simp only [crawlCategory, hnp]
      rw [hnp] at hc
      rcases List.mem_append.mp hc with hc' | hc'
      · have := processCards_card_seen cat p.cards seen c hc'
        exact (crawlCategory_mem_seen cat rest _ _).mpr (Or.inl this)
      · exact ih _ c hc'

theorem crawlCategories_mem_seen :
    ∀ (cs : List String) (site : String → List ListingPage)
      (seen : List (Option String)) (x : Option String),
    x ∈ (crawlCategories cs site seen).1 ↔
      x ∈ seen ∨ ∃ r ∈ (crawlCategories cs site seen).2, r.link = x := by
  intro cs
  induction cs with
  | nil => simp [crawlCategories]
  | cons c cs ih =>
    intro site seen x
    simp only [crawlCategories]
    rw [ih]
    rw [crawlCategory_mem_seen c (site c) seen x]
    simp only [List.mem_append]
    constructor
    · rintro ((hx | ⟨r, hr, hl⟩) | ⟨r, hr, hl⟩)
      · exact Or.inl hx
      · exact Or.inr ⟨r, Or.inl hr, hl⟩
      · exact Or.inr ⟨r, Or.inr hr, hl⟩
    · rintro (hx | ⟨r, hr | hr, hl⟩)
      · exact Or.inl (Or.inl hx)
      · exact Or.inl (Or.inr ⟨r, hr, hl⟩)
      · exact Or.inr ⟨r, hr, hl⟩

theorem crawlCategories_nodup_disj :
    ∀ (cs : List String) (site : String → List ListingPage)
      (seen : List (Option String)),
    ((crawlCategories cs site seen).2.map ProductRow.link).Nodup
    ∧ ∀ r ∈ (crawlCategories cs site seen).2, r.link ∉ seen := by
  intro cs
  induction cs with
  | nil => simp [crawlCategories]
  | cons c cs ih =>
    intro site seen
    simp only [crawlCategories]
    obtain ⟨h1nd, h1disj⟩ := crawlCategory_nodup_disj c (site c) seen
    obtain ⟨h2nd, h2disj⟩ := ih site (crawlCategory c (site c) seen).1
    constructor
    · rw [List.map_append]
      refine List.Nodup.append h1nd h2nd ?_
      intro a ha1 ha2
      obtain ⟨r1, hr1, hl1⟩ := List.mem_map.mp ha1
      obtain ⟨r2, hr2, hl2⟩ := List.mem_map.mp ha2
      have : r2.link ∈ (crawlCategory c (site c) seen).1 :=
        (crawlCategory_mem_seen c (site c) seen _).mpr
          (Or.inr ⟨r1, hr1, hl1.trans hl2.symm⟩)
      exact h2disj r2 hr2 this
    · intro r hr
      rcases List.mem_append.mp hr with hr' | hr'
      · exact h1disj r hr'
      · intro hmem
        exact h2disj r hr'
          ((crawlCategory_mem_seen c (site c) seen _).mpr (Or.inl hmem))

theorem crawlCategories_card_seen :
    ∀ (cs : List String) (site : String → List ListingPage)
      (seen : List (Option String)) (c : ProductCard),
    c ∈ visitedCats cs site → cardLink c ∈ (crawlCategories cs site seen).1 := by
  intro cs
  induction cs with
  | nil => simp [visitedCats]
  | cons c0 cs ih =>
    intro site seen c hc
    simp only [visitedCats] at hc
    simp only [crawlCategories]
    rcases List.mem_append.mp hc with hc' | hc'
    · have := crawlCategory_card_seen c0 (site c0) seen c hc'
      exact (crawlCategories_mem_seen cs site _ _).mpr (Or.inl this)
    · exact ih site _ c hc'

theorem filter_length_le_one_of_map_nodup {α β : Type} [DecidableEq β]
    (f : α → β) (b : β) :
    ∀ l : List α, (l.map f).Nodup →
    (l.filter (fun x => decide (f x = b))).length ≤ 1 := by
  intro l
  induction l with
  | nil => simp
  | cons a l ih =>
    intro h
    simp only [List.map_cons, List.nodup_cons] at h
    obtain ⟨hna, hnd⟩ := h
    by_cases hfa : f a = b
    · rw [List.filter_cons_of_pos (by simp [hfa])]
      have hnil : l.filter (fun x => decide (f x = b)) = [] := by
        rw [List.filter_eq_nil_iff]
        intro x hx
        simp only [decide_eq_true_eq]
        intro heq
        exact hna (by rw [hfa, ← heq]; exact List.mem_map_of_mem f hx)
      rw [hnil]
      simp
    · rw [List.filter_cons_of_neg (by simp [hfa])]
      exact ih hnd

theorem filter_length_eq_one_of_map_nodup {α β : Type} [DecidableEq β]
    (f : α → β) (b : β) (l : List α) (hnd : (l.map f).Nodup)
    (hmem : ∃ a ∈ l, f a = b) :
    (l.filter (fun x => decide (f x = b))).length = 1 := by
  obtain ⟨a, ha, hfa⟩ := hmem
  have h1 : a ∈ l.filter (fun x => decide (f x = b)) :=
    List.mem_filter.mpr ⟨ha, by simp [hfa]⟩
  have h2 : 0 < (l.filter (fun x => decide (f x = b))).length :=
    List.length_pos.mpr (List.ne_nil_of_mem h1)
  have h3 := filter_length_le_one_of_map_nodup f b l hnd
  omega

/-- C1: across the whole product crawl the `link` values of the returned
rows are pairwise distinct (the seen-links set makes duplicates be skipped
silently — skipping is a normal branch of the total function, not an
error), and every link that occurs on any visited listing page of any
category occurs in the returned rows exactly once. -/
theorem c1_product_link_dedup (site : String → List ListingPage) :
    ((scrape_products site).map ProductRow.link).Nodup
    ∧ ∀ L : String, (∃ c ∈ visitedCards site, cardLink c = some L) →
        ((scrape_products site).filter
          (fun r => decide (r.link = some L))).length = 1 := by
  constructor
  · exact (crawlCategories_nodup_disj categories site []).1
  · intro L ⟨c, hc, hl⟩
    have hseen := crawlCategories_card_seen categories site [] c hc
    have hmem := (crawlCategories_mem_seen categories site [] (cardLink c)).mp hseen
    rcases hmem with hfalse | ⟨r, hr, hrl⟩
    · simp at hfalse
    · exact filter_length_eq_one_of_map_nodup ProductRow.link (some L)
        (scrape_products site)
        (crawlCategories_nodup_disj categories site []).1
        ⟨r, hr, by rw [hrl, hl]⟩

/-- Concrete two-category site on which the same product link appears in
both categories' listings. -/
def siteC1 : String → List ListingPage := fun c =>
  if c = "apparel" then
    [⟨[⟨some ⟨"Prod One", some "/product/1"⟩, some "$10", some "d1"⟩], none⟩]
  else if c = "consumables" then
    [⟨[⟨some ⟨"Prod One", some "/product/1"⟩, none, none⟩,
       ⟨some ⟨"Prod Two", some "/product/2"⟩, none, none⟩], none⟩]
  else []

theorem c1_witness :
    (∃ c ∈ visitedCards siteC1, cardLink c = some (BASE ++ "/product/1"))
    ∧ ((scrape_products siteC1).filter
        (fun r => decide (r.link = some (BASE ++ "/product/1")))).length = 1 :=
  ⟨by decide, (c1_product_link_dedup siteC1).2 (BASE ++ "/product/1") (by decide)⟩

/-- Concrete category content for C10: the first card has a name anchor
without an `href` (so its link is `None` but its name is present), the
second card has no name anchor at all. -/
def siteC10 : String → List ListingPage := fun c =>
  if c = "apparel" then
    [⟨[⟨some ⟨"X", none⟩, some "$1", none⟩,
       ⟨none, some "$2", some "d2"⟩], none⟩]
  else []

/-- C10 counterexample: on `siteC10` the first link-less card encountered
is recorded with a PRESENT name (`"X"`), because a name anchor lacking an
`href` also yields a `None` link; the claim's "recorded as a product with
absent name and link" is false, and the card that actually lacks its name
anchor is skipped entirely (no returned row has an absent name). -/
theorem c10_counterexample :
    ((scrape_products siteC10).filter (fun r => decide (r.link = none))).length = 1
    ∧ (∀ r ∈ scrape_products siteC10, r.link = none → r.name = some "X")
    ∧ (∃ c ∈ visitedCards siteC10, c.nameAnchor = none)
    ∧ (∀ r ∈ scrape_products siteC10, r.name ≠ none) := by
  refine ⟨by decide, by decide, by decide, by decide⟩

/-- C10 (amended): a card whose name anchor is missing yields an absent
(`None`) link, and `None` link values take part in the seen-links dedup
like any other: the returned product set contains at most one record with
an absent link — exactly one as soon as any visited card yields an absent
link — and every link-less card after the first is silently skipped. (The
first card yielding an absent link need not have an absent name: a name
anchor lacking an `href` also yields an absent link while its name text is
recorded.) -/
theorem c10_absent_link_dedup (site : String → List ListingPage) :
    (∀ c : ProductCard, c.nameAnchor = none → cardLink c = none)
    ∧ ((scrape_products site).filter (fun r => decide (r.link = none))).length ≤ 1
    ∧ ((∃ c ∈ visitedCards site, cardLink c = none) →
        ((scrape_products site).filter
          (fun r => decide (r.link = none))).length = 1) := by
  refine ⟨?_, ?_, ?_⟩
  · intro c hc
    simp [cardLink, hc]
  · exact filter_length_le_one_of_map_nodup ProductRow.link none
      (scrape_products site) (crawlCategories_nodup_disj categories site []).1
  · intro ⟨c, hc, hl⟩
    have hseen := crawlCategories_card_seen categories site [] c hc
    have hmem := (crawlCategories_mem_seen categories site [] (cardLink c)).mp hseen
    rcases hmem with hfalse | ⟨r, hr, hrl⟩
    · simp at hfalse
    · exact filter_length_eq_one_of_map_nodup ProductRow.link none
        (scrape_products site)
        (crawlCategories_nodup_disj categories site []).1
        ⟨r, hr, by rw [hrl, hl]⟩

theorem c10_witness :
    (∃ c ∈ visitedCards siteC10, cardLink c = none)
    ∧ ((scrape_products siteC10).filter
        (fun r => decide (r.link = none))).length = 1 :=
  ⟨by decide, (c10_absent_link_dedup siteC10).2.2 (by decide)⟩

/-! ## Theorems: review extraction -/

theorem parse_date_empty : parse_date "" = none := by decide

/-- Every row of the aggregate list is the processing of some review
record of some successfully parsed payload of some requested link. -/
theorem reviewsGo_shape (fetch : String → FetchResult ScriptResult) :
    ∀ (links : List String) (rows : List ReviewRow),
    reviewsGo fetch links = .ok rows →
    ∀ r ∈ rows, ∃ url ∈ links, ∃ s, fetch url = .ok s
      ∧ ∃ rj ∈ scriptReviews s, r = processReview url rj := by
  intro links
  induction links with
  | nil =>
    intro rows h r hr
    simp only [reviewsGo] at h
    cases h
    simp at hr
  | cons url rest ih =>
    intro rows h r hr
    simp only [reviewsGo] at h
    cases hf : fetch url with
    | fail e => rw [hf] at h; cases h
    | ok s =>
      rw [hf] at h
      cases hgo : reviewsGo fetch rest with
      | fail e => rw [hgo] at h; cases h
      | ok more =>
        rw [hgo] at h
        cases h
        rcases List.mem_append.mp hr with hr' | hr'
        · obtain ⟨rj, hrj, hrid⟩ := List.mem_map.mp hr'
          exact ⟨url, List.mem_cons_self _ _, s, hf, rj, hrj, hrid.symm⟩
        · obtain ⟨u, hu, s', hs', rj, hrj, hrid⟩ := ih more hgo r hr'
          exact ⟨u, List.mem_cons_of_mem _ hu, s', hs', rj, hrj, hrid⟩

theorem processReview_flag (url : String) (rj : RawReviewJson) :
    ((processReview url rj).is_from_2023 = true ↔
      ∃ d, parse_date (processReview url rj).date_raw = some d ∧ d.year = 2023)
    ∧ (parse_date (processReview url rj).date_raw = none →
        (processReview url rj).date = none
        ∧ (processReview url rj).is_from_2023 = false) := by
  have hdr : (processReview url rj).date_raw = rj.date.getD "" := rfl
  by_cases hne : rj.date.getD "" = ""
  · have hdate : (processReview url rj).date = none := by
      simp [processReview, hne]
    have hflag : (processReview url rj).is_from_2023 = false := by
      simp [processReview, hne]
    rw [hdr, hne, hdate, hflag, parse_date_empty]
    simp
  · have hdate : (processReview url rj).date = parse_date (rj.date.getD "") := by
      simp [processReview, hne]
    cases hp : parse_date (rj.date.getD "") with
    | none =>
      have hflag : (processReview url rj).is_from_2023 = false := by
        simp [processReview, hne, hp]
      rw [hdr, hdate, hflag, hp]
      simp
    | some d =>
      have hflag : (processReview url rj).is_from_2023 = (d.year == 2023) := by
        simp [processReview, hne, hp]
      rw [hdr, hdate, hflag, hp]
      constructor
      · constructor
        · intro h
          exact ⟨d, rfl, by simpa using h⟩
        · rintro ⟨d', hd', hy⟩
          cases hd'
          simpa using hy
      · intro h; cases h

/-- C2: in the aggregate list returned by `scrape_reviews`, a row's
`is_from_2023` flag is `true` iff its raw date string parses via
`parse_date` to a date whose year is 2023; a row whose raw date is
unparseable (including the empty default) has `date = none` and
`is_from_2023 = false` — unparseable dates are a normal value, never a
failure of the extraction. -/
theorem c2_is_from_2023_iff (fetch : String → FetchResult ScriptResult)
    (links : List String) (allRows filtered : List ReviewRow)
    (h : scrape_reviews fetch links = .ok (allRows, filtered)) :
    ∀ r ∈ allRows,
      (r.is_from_2023 = true ↔
        ∃ d, parse_date r.date_raw = some d ∧ d.year = 2023)
      ∧ (parse_date r.date_raw = none →
          r.date = none ∧ r.is_from_2023 = false) := by
  intro r hr
  have hgo : reviewsGo fetch links = .ok allRows := by
    simp only [scrape_reviews] at h
    cases hg : reviewsGo fetch links with
    | fail e => rw [hg] at h; cases h
    | ok rows => rw [hg] at h; cases h; rfl
  obtain ⟨url, _, s, _, rj, _, rfl⟩ := reviewsGo_shape fetch links allRows hgo r hr
  exact processReview_flag url rj

def fetchC2 : String → FetchResult ScriptResult := fun _ =>
  .ok (.parsed
    [⟨some "r1", some "great", some 5, some "2023-03-15"⟩,
     ⟨some "r2", some "meh", some 2, some "not-a-date"⟩,
     ⟨some "r3", some "old", some 4, some "2021-01-02"⟩,
     ⟨some "r4", some "blank", some 3, none⟩])

theorem c2_witness :
    ∃ allRows filtered,
      scrape_reviews fetchC2 ["https://web-scraping.dev/product/1"]
        = .ok (allRows, filtered)
      ∧ ∀ r ∈ allRows,
          (r.is_from_2023 = true ↔
            ∃ d, parse_date r.date_raw = some d ∧ d.year = 2023)
          ∧ (parse_date r.date_raw = none →
              r.date = none ∧ r.is_from_2023 = false) := by
  refine ⟨_, _, rfl, ?_⟩
  exact c2_is_from_2023_iff fetchC2 ["https://web-scraping.dev/product/1"] _ _ rfl

def fetchC4 : String → FetchResult ScriptResult := fun u =>
  if u = "https://web-scraping.dev/product/1" then
    .ok (.parsed [⟨some "r1", some "good", some 5, some "2023-03-15"⟩])
  else if u = "https://web-scraping.dev/product/2" then
    .fail ⟨"https://web-scraping.dev/product/2"⟩
  else
    .ok (.parsed [⟨some "r3", some "fine", some 4, some "2023-04-01"⟩])

/-- C4 counterexample: `get_soup(product_url)` is not guarded by any
try/except in the review loop, so a fetch failure on the second of three
products makes the whole extraction fail — no pair of review lists is
returned at all, hence the reviews already collected from the first
product are not "still returned" and the third product is never
processed. -/
theorem c4_counterexample :
    scrape_reviews fetchC4
      ["https://web-scraping.dev/product/1",
       "https://web-scraping.dev/product/2",
       "https://web-scraping.dev/product/3"]
      = .fail ⟨"https://web-scraping.dev/product/2"⟩
    ∧ ∀ allRows filtered : List ReviewRow,
        scrape_reviews fetchC4
          ["https://web-scraping.dev/product/1",
           "https://web-scraping.dev/product/2",
           "https://web-scraping.dev/product/3"]
          ≠ .ok (allRows, filtered) := by
  refine ⟨by decide, ?_⟩
  intro allRows filtered h
  have h1 : scrape_reviews fetchC4
      ["https://web-scraping.dev/product/1",
       "https://web-scraping.dev/product/2",
       "https://web-scraping.dev/product/3"]
      = .fail ⟨"https://web-scraping.dev/product/2"⟩ := by decide
  rw [h1] at h
  exact FetchResult.noConfusion h

/-- C4 (amended): a fetch failure (non-2xx or network error) on one
product's detail page is NOT isolated: it propagates out of
`scrape_reviews` and aborts the whole batch, so no reviews at all are
returned — neither those of earlier products nor those of later ones.
Only absent or malformed embedded payloads are handled per product. -/
theorem c4_fetch_failure_propagates
    (fetch : String → FetchResult ScriptResult)
    (pre post : List String) (url : String) (e : FetchError)
    (hpre : ∀ u ∈ pre, ∃ s, fetch u = .ok s)
    (hurl : fetch url = .fail e) :
    scrape_reviews fetch (pre ++ url :: post) = .fail e := by
  have hgo : ∀ pre2 : List String, (∀ u ∈ pre2, ∃ s, fetch u = .ok s) →
      reviewsGo fetch (pre2 ++ url :: post) = .fail e := by
    intro pre2
    induction pre2 with
    | nil =>
      intro _
      simp only [List.nil_append, reviewsGo]
      rw [hurl]
    | cons p ps ih =>
      intro hp
      obtain ⟨s, hs⟩ := hp p (List.mem_cons_self _ _)
      simp only [List.cons_append, reviewsGo, List.append_eq]
      rw [hs, ih (fun u hu => hp u (List.mem_cons_of_mem _ hu))]
  simp only [scrape_reviews]
  rw [hgo pre hpre]

theorem c4_witness :
    scrape_reviews fetchC4
      ["https://web-scraping.dev/product/1",
       "https://web-scraping.dev/product/2",
       "https://web-scraping.dev/product/3"]
      = .fail ⟨"https://web-scraping.dev/product/2"⟩ :=
  c4_fetch_failure_propagates fetchC4
    ["https://web-scraping.dev/product/1"]
    ["https://web-scraping.dev/product/3"]
    "https://web-scraping.dev/product/2"
    ⟨"https://web-scraping.dev/product/2"⟩
    (by
      intro u hu
      rw [List.mem_singleton] at hu
      subst hu
      exact ⟨.parsed [⟨some "r1", some "good", some 5, some "2023-03-15"⟩], rfl⟩)
    rfl

theorem reviewsGo_complete (fetch : String → FetchResult ScriptResult) :
    ∀ (links : List String) (rows : List ReviewRow),
    reviewsGo fetch links = .ok rows →
    ∀ url ∈ links, ∀ s, fetch url = .ok s →
      ∀ rj ∈ scriptReviews s, processReview url rj ∈ rows := by
  intro links
  induction links with
  | nil =>
    intro rows _ url hu
    simp at hu
  | cons u0 rest ih =>
    intro rows h url hu s hs rj hrj
    simp only [reviewsGo] at h
    cases hf0 : fetch u0 with
    | fail e => rw [hf0] at h; cases h
    | ok s0 =>
      rw [hf0] at h
      cases hgo : reviewsGo fetch rest with
      | fail e => rw [hgo] at h; cases h
      | ok more =>
        rw [hgo] at h
        cases h
        rcases List.mem_cons.mp hu with rfl | hu'
        · rw [hf0] at hs
          injection hs with hss
          subst hss
          exact List.mem_append.mpr (Or.inl (List.mem_map_of_mem _ hrj))
        · exact List.mem_append.mpr (Or.inr (ih more hgo url hu' s hs rj hrj))

/-- C5: when `scrape_reviews` succeeds, its second component is exactly
the filtering of the first component on the `is_from_2023` column — an
order-preserving subsequence, derived by projection from the full list —
and every review record of every successfully parsed payload is appended
to the full list regardless of its year. -/
theorem c5_filtered_projection (fetch : String → FetchResult ScriptResult)
    (links : List String) (allRows filtered : List ReviewRow)
    (h : scrape_reviews fetch links = .ok (allRows, filtered)) :
    filtered = allRows.filter (fun r => r.is_from_2023)
    ∧ List.Sublist filtered allRows
    ∧ ∀ url ∈ links, ∀ s, fetch url = .ok s →
        ∀ rj ∈ scriptReviews s, processReview url rj ∈ allRows := by
  cases hg : reviewsGo fetch links with
  | fail e =>
    simp only [scrape_reviews] at h
    rw [hg] at h
    cases h
  | ok rows =>
    simp only [scrape_reviews] at h
    rw [hg] at h
    cases h
    refine ⟨rfl, List.filter_sublist _, ?_⟩
    exact reviewsGo_complete fetch links _ hg

def fetchC5 : String → FetchResult ScriptResult := fun _ =>
  .ok (.parsed
    [⟨some "a", some "x", some 5, some "2023-06-01"⟩,
     ⟨some "b", some "y", some 1, some "2022-06-01"⟩,
     ⟨some "c", some "z", some 3, some "2023-07-02"⟩])

theorem c5_witness :
    ∃ allRows filtered,
      scrape_reviews fetchC5 ["https://web-scraping.dev/product/9"]
        = .ok (allRows, filtered)
      ∧ filtered = allRows.filter (fun r => r.is_from_2023)
      ∧ List.Sublist filtered allRows := by
  refine ⟨_, _, rfl, ?_, ?_⟩
  · exact (c5_filtered_projection fetchC5
      ["https://web-scraping.dev/product/9"] _ _ rfl).1
  · exact (c5_filtered_projection fetchC5
      ["https://web-scraping.dev/product/9"] _ _ rfl).2.1

theorem reviewsGo_skip (fetch : String → FetchResult ScriptResult)
    (url : String) (s : ScriptResult)
    (hf : fetch url = .ok s) (hs : scriptReviews s = []) :
    ∀ pre post : List String,
    reviewsGo fetch (pre ++ url :: post) = reviewsGo fetch (pre ++ post) := by
  intro pre
  induction pre with
  | nil =>
    intro post
    simp only [List.nil_append, reviewsGo]
    rw [hf]
    cases hgo : reviewsGo fetch post with
    | fail e => simp [hgo]
    | ok more => simp [hgo, hs]
  | cons p ps ih =>
    intro post
    simp only [List.cons_append, reviewsGo, List.append_eq]
    rw [ih post]

/-- C6: a product page whose embedded reviews payload is absent, or
present but failing JSON parsing, contributes zero reviews — the run over
the whole batch is literally the run with this product removed, so the
failure never propagates and the remaining products are processed
unchanged. -/
theorem c6_payload_isolated (fetch : String → FetchResult ScriptResult)
    (pre post : List String) (url : String) (s : ScriptResult)
    (hf : fetch url = .ok s) (hs : s = .absent ∨ s = .malformed) :
    scrape_reviews fetch (pre ++ url :: post)
      = scrape_reviews fetch (pre ++ post) := by
  have hz : scriptReviews s = [] := by rcases hs with rfl | rfl <;> rfl
  simp only [scrape_reviews]
  rw [reviewsGo_skip fetch url s hf hz pre post]

def fetchC6 : String → FetchResult ScriptResult := fun u =>
  if u = "https://web-scraping.dev/product/2" then .ok .malformed
  else if u = "https://web-scraping.dev/product/3" then .ok .absent
  else .ok (.parsed [⟨some "r1", some "good", some 5, some "2023-03-15"⟩])

theorem c6_witness :
    scrape_reviews fetchC6
      ["https://web-scraping.dev/product/1",
       "https://web-scraping.dev/product/2",
       "https://web-scraping.dev/product/4"]
      = scrape_reviews fetchC6
      ["https://web-scraping.dev/product/1",
       "https://web-scraping.dev/product/4"] :=
  c6_payload_isolated fetchC6
    ["https://web-scraping.dev/product/1"]
    ["https://web-scraping.dev/product/4"]
    "https://web-scraping.dev/product/2"
    .malformed rfl (Or.inr rfl)

/-! ## Theorems: testimonial crawler -/

theorem headerLookup_map_update (k v : String) :
    ∀ l : List (String × String), l.any (fun p => p.1 = k) = true →
    headerLookup (l.map (fun p => if p.1 = k then (k, v) else p)) k = some v := by
  intro l
  induction l with
  | nil => intro h; simp at h
  | cons p rest ih =>
    obtain ⟨pk, pv⟩ := p
    intro h
    by_cases hp : pk = k
    · rw [List.map_cons, if_pos hp]
      simp [headerLookup]
    · have h' : rest.any (fun p => p.1 = k) = true := by
        simp only [List.any_cons, Bool.or_eq_true, decide_eq_true_eq] at h
        rcases h with h | h
        · exact absurd h hp
        · exact h
      rw [List.map_cons, if_neg hp]
      simp only [headerLookup]
      rw [if_neg hp]
      exact ih h'

theorem headerLookup_append_self (k v : String) :
    ∀ l : List (String × String), l.any (fun p => p.1 = k) = false →
    headerLookup (l ++ [(k, v)]) k = some v := by
  intro l
  induction l with
  | nil => simp [headerLookup]
  | cons p rest ih =>
    obtain ⟨pk, pv⟩ := p
    intro h
    simp only [List.any_cons, Bool.or_eq_false_iff, decide_eq_false_iff_not] at h
    rw [List.cons_append]
    simp only [headerLookup]
    rw [if_neg h.1]
    exact ih h.2

/-- `dict.update` semantics: after merging, the updated key maps to the
new value, whether or not it was present before. -/
theorem headerLookup_updateHeader (base : List (String × String))
    (k v : String) :
    headerLookup (updateHeader base k v) k = some v := by
  unfold updateHeader
  by_cases h : base.any (fun p => p.1 = k) = true
  · rw [if_pos h]
    exact headerLookup_map_update k v base h
  · rw [if_neg h]
    exact headerLookup_append_self k v base (Bool.eq_false_iff.mpr h)

theorem crawlHeaders_one : crawlHeaders 1 = HEADERS := rfl

theorem crawlHeaders_later (page : Nat) (h : 2 ≤ page) :
    crawlHeaders page = mergeHeaders HEADERS secretHeaders := by
  unfold crawlHeaders soupHeaders
  rw [if_neg (by omega)]

theorem crawlT_later_secret (site : String → Option TPage) :
    ∀ (fuel : Nat) (url : String) (page : Nat) (visits : List Visit)
      (rows : List TRow),
    2 ≤ page → crawlT site fuel url page = some (visits, rows) →
    ∀ v ∈ visits, v.headers = mergeHeaders HEADERS secretHeaders := by
  intro fuel
  induction fuel with
  | zero =>
    intro url page visits rows _ h
    cases h
  | succ fuel ih =>
    intro url page visits rows hpage h
    simp only [crawlT] at h
    split at h
    · cases h
    · split at h
      · split at h
        · cases h
        · rename_i vs rs hrec
          cases h
          intro v hv
          rcases List.mem_cons.mp hv with rfl | hv'
          · exact crawlHeaders_later page hpage
          · exact ih _ (page + 1) vs rs (by omega) hrec v hv'
      · cases h
        intro v hv
        rw [List.mem_singleton] at hv
        subst hv
        exact crawlHeaders_later page hpage

/-- C7: the testimonial crawl fetches its first page with the default
header set only (the user-agent dict `HEADERS`), and every page after the
first with the base headers merged with the secret-token header and a
referer header whose value is the canonical testimonial listing URL; the
merge is `dict.update` over the base dict, so extra values override base
values on key conflict. -/
theorem c7_testimonial_headers (site : String → Option TPage) (fuel : Nat)
    (visits : List Visit) (rows : List TRow)
    (h : scrape_testimonials site fuel = some (visits, rows)) :
    (∃ vs, visits = Visit.mk (BASE ++ "/testimonials") HEADERS :: vs
      ∧ ∀ v ∈ vs, v.headers = mergeHeaders HEADERS secretHeaders)
    ∧ ("x-secret-token", "secret123") ∈ mergeHeaders HEADERS secretHeaders
    ∧ ("referer", BASE ++ "/testimonials") ∈ mergeHeaders HEADERS secretHeaders
    ∧ (∀ (base : List (String × String)) (k v : String),
        headerLookup (updateHeader base k v) k = some v) := by
  refine ⟨?_, by decide, by decide, headerLookup_updateHeader⟩
  unfold scrape_testimonials at h
  cases fuel with
  | zero => cases h
  | succ fuel =>
    simp only [crawlT] at h
    split at h
    · cases h
    · split at h
      · split at h
        · cases h
        · rename_i vs rs hrec
          cases h
          exact ⟨vs, rfl,
            crawlT_later_secret site fuel _ 2 vs rs (by omega) hrec⟩
      · cases h
        exact ⟨[], rfl, by simp⟩

def fetchHeadersC7 : String → Option TPage := fun u =>
  if u = BASE ++ "/testimonials" then
    some ⟨[⟨some "alice", some "Great shop!", some [(), (), ()], none⟩,
           ⟨none, none, none, some "/api/testimonials?page=2"⟩]⟩
  else if u = BASE ++ "/api/testimonials?page=2" then
    some ⟨[⟨some "bob", some "Nice.", some [()], none⟩]⟩
  else none

theorem c7_witness :
    ∃ visits rows,
      scrape_testimonials fetchHeadersC7 2 = some (visits, rows)
      ∧ ∃ vs, visits = Visit.mk (BASE ++ "/testimonials") HEADERS :: vs
          ∧ ∀ v ∈ vs, v.headers = mergeHeaders HEADERS secretHeaders := by
  refine ⟨_, _, rfl, ?_⟩
  exact (c7_testimonial_headers fetchHeadersC7 2 _ _ rfl).1

/-- C8: a testimonial card is turned into a row iff its extracted text is
present and non-empty; in that case the row keeps the (possibly absent)
author and the rating, which, when the rating container exists, is the
count of its `svg` glyph children (absent otherwise); and a page's
extracted rows are exactly the per-card results in order. -/
theorem c8_testimonial_card_filter (c : TCard) :
    ((cardRow c).isSome ↔ ∃ t, c.textEl = some t ∧ t ≠ "")
    ∧ (∀ t, c.textEl = some t → t ≠ "" →
        cardRow c = some ⟨c.username, t, c.ratingSvgs.map List.length⟩)
    ∧ (∀ r, cardRow c = some r →
        r.rating = c.ratingSvgs.map List.length
        ∧ r.author = c.username ∧ r.text ≠ "")
    ∧ (∀ p : TPage, extractTRows p = p.cards.filterMap cardRow) := by
  refine ⟨?_, ?_, ?_, fun p => rfl⟩
  · unfold cardRow
    cases ht : c.textEl with
    | none => simp
    | some t =>
      by_cases hne : t = ""
      · subst hne
        simp
      · simp [hne]
  · intro t ht hne
    unfold cardRow
    rw [ht]
    simp [hne]
  · intro r hr
    cases ht : c.textEl with
    | none =>
      unfold cardRow at hr
      rw [ht] at hr
      cases hr
    | some t =>
      by_cases hne : t = ""
      · unfold cardRow at hr
        rw [ht] at hr
        subst hne
        simp at hr
      · have hc : cardRow c = some ⟨c.username, t, c.ratingSvgs.map List.length⟩ := by
          unfold cardRow
          rw [ht]
          simp [hne]
        rw [hc] at hr
        injection hr with hr
        subst hr
        exact ⟨rfl, rfl, hne⟩

theorem c8_witness :
    cardRow ⟨some "alice", some "Great!", none, none⟩
      = some ⟨some "alice", "Great!", none⟩
    ∧ cardRow ⟨none, some "hello", some [(), ()], none⟩
      = some ⟨none, "hello", some 2⟩
    ∧ cardRow ⟨some "x", some "", some [()], none⟩ = none := by
  refine ⟨?_, ?_, ?_⟩
  · exact (c8_testimonial_card_filter _).2.1 "Great!" rfl (by decide)
  · exact (c8_testimonial_card_filter _).2.1 "hello" rfl (by decide)
  · have h := (c8_testimonial_card_filter
      (⟨some "x", some "", some [()], none⟩ : TCard)).1
    rw [← Option.not_isSome_iff_eq_none]
    intro hs
    obtain ⟨t, ht, hne⟩ := h.mp hs
    injection ht with ht
    exact hne ht.symm

/-- One pagination step of the testimonial chain: the trigger value of a
page, resolved against `BASE`, is the next page's URL. -/
def chainLinked (a b : String × TPage) : Prop :=
  (nextLinkOf a.2).map resolveNext = some b.1

instance (a b : String × TPage) : Decidable (chainLinked a b) := by
  unfold chainLinked
  infer_instance

theorem crawlT_succ (site : String → Option TPage)
    (fuel : Nat) (url : String) (page : Nat) :
    crawlT site (fuel + 1) url page =
      match site url with
      | none => none
      | some p =>
        match nextLinkOf p with
        | some nl =>
          match crawlT site fuel (resolveNext nl) (page + 1) with
          | none => none
          | some (vs, rs) =>
            some (⟨url, crawlHeaders page⟩ :: vs, extractTRows p ++ rs)
        | none => some ([⟨url, crawlHeaders page⟩], extractTRows p) := rfl

theorem crawlT_chain (site : String → Option TPage) :
    ∀ (chain : List (String × TPage)) (e : String × TPage) (page : Nat),
    (∀ x ∈ e :: chain, site x.1 = some x.2) →
    List.Chain' chainLinked (e :: chain) →
    nextLinkOf ((e :: chain).getLast (List.cons_ne_nil e chain)).2 = none →
    ∃ visits rows,
      crawlT site (chain.length + 1) e.1 page = some (visits, rows)
      ∧ visits.map Visit.url = (e :: chain).map Prod.fst
      ∧ rows = ((e :: chain).map (fun x => extractTRows x.2)).flatten := by
  intro chain
  induction chain with
  | nil =>
    intro e page hsite _ hlast
    simp only [List.getLast_singleton] at hlast
    refine ⟨[⟨e.1, crawlHeaders page⟩], extractTRows e.2, ?_, by simp, by simp⟩
    rw [crawlT_succ]
    simp only [hsite e (List.mem_cons_self _ _), hlast]
  | cons b rest ih =>
    intro e page hsite hchain hlast
    have hR : chainLinked e b := (List.chain'_cons.mp hchain).1
    have hchain' : List.Chain' chainLinked (b :: rest) :=
      (List.chain'_cons.mp hchain).2
    have hlast' :
        nextLinkOf ((b :: rest).getLast (List.cons_ne_nil b rest)).2 = none := by
      rw [List.getLast_cons (List.cons_ne_nil b rest)] at hlast
      exact hlast
    obtain ⟨vs, rs, hcrawl, hurls, hrows⟩ := ih b (page + 1)
      (fun x hx => hsite x (List.mem_cons_of_mem _ hx)) hchain' hlast'
    obtain ⟨nl, hnl, hres⟩ : ∃ nl, nextLinkOf e.2 = some nl ∧ resolveNext nl = b.1 := by
      unfold chainLinked at hR
      cases hnl : nextLinkOf e.2 with
      | none => rw [hnl] at hR; cases hR
      | some nl =>
        rw [hnl, Option.map_some'] at hR
        injection hR with hR
        exact ⟨nl, rfl, hR⟩
    refine ⟨⟨e.1, crawlHeaders page⟩ :: vs, extractTRows e.2 ++ rs, ?_, ?_, ?_⟩
    · show crawlT site (rest.length + 1 + 1) e.1 page = _
      rw [crawlT_succ]
      simp only [hsite e (List.mem_cons_self _ _), hnl, hres, hcrawl]
    · simp [hurls]
    · simp [hrows]

/-- C9: for a finite chain of testimonial pages in which each page's
trigger (`hx-get`) value resolves to the next page's URL and the final
page carries no trigger, the crawl loop with fuel equal to the chain
length terminates with a result, its fetch trace is exactly the chain's
URL list — each page fetched exactly once when the URLs are distinct —
and it returns the testimonials accumulated over all pages in order. -/
theorem c9_testimonial_termination (site : String → Option TPage)
    (chain : List (String × TPage)) (e : String × TPage)
    (hsite : ∀ x ∈ e :: chain, site x.1 = some x.2)
    (hchain : List.Chain' chainLinked (e :: chain))
    (hlast : nextLinkOf ((e :: chain).getLast (List.cons_ne_nil e chain)).2 = none)
    (hstart : e.1 = BASE ++ "/testimonials") :
    ∃ visits rows,
      scrape_testimonials site (e :: chain).length = some (visits, rows)
      ∧ visits.map Visit.url = (e :: chain).map Prod.fst
      ∧ rows = ((e :: chain).map (fun x => extractTRows x.2)).flatten
      ∧ (((e :: chain).map Prod.fst).Nodup →
          ∀ u ∈ visits.map Visit.url, (visits.map Visit.url).count u = 1) := by
  obtain ⟨visits, rows, h1, h2, h3⟩ := crawlT_chain site chain e 1 hsite hchain hlast
  refine ⟨visits, rows, ?_, h2, h3, ?_⟩
  · unfold scrape_testimonials
    rw [← hstart]
    exact h1
  · intro hnd u hu
    rw [h2] at hu ⊢
    exact List.count_eq_one_of_mem hnd hu

def pageT1 : TPage :=
  ⟨[⟨some "alice", some "Great shop!", some [(), (), (), (), ()], none⟩,
    ⟨none, none, none, some "/api/testimonials?page=2"⟩]⟩

def pageT2 : TPage :=
  ⟨[⟨some "bob", some "Nice.", some [(), (), ()], none⟩]⟩

def siteC9 : String → Option TPage := fun u =>
  if u = BASE ++ "/testimonials" then some pageT1
  else if u = BASE ++ "/api/testimonials?page=2" then some pageT2
  else none

theorem c9_witness :
    ∃ visits rows,
      scrape_testimonials siteC9 2 = some (visits, rows)
      ∧ visits.map Visit.url
          = [BASE ++ "/testimonials", BASE ++ "/api/testimonials?page=2"]
      ∧ rows = extractTRows pageT1 ++ (extractTRows pageT2 ++ [])
      ∧ ∀ u ∈ visits.map Visit.url, (visits.map Visit.url).count u = 1 := by
  obtain ⟨visits, rows, h1, h2, h3, h4⟩ :=
    c9_testimonial_termination siteC9
      [(BASE ++ "/api/testimonials?page=2", pageT2)]
      (BASE ++ "/testimonials", pageT1)
      (by decide)
      (List.chain'_cons.mpr ⟨by decide, List.chain'_singleton _⟩)
      (by decide)
      rfl
  refine ⟨visits, rows, h1, h2, by simpa using h3, ?_⟩
  exact h4 (by decide)
